import Mathlib

/-!
# Verification of the faust core runtime (attachments, topics, table manager)

A shallow embedding of the three source files

  * `src/faust/app/_attached.py`   (attachment buffer)
  * `src/faust/topics.py`          (Topic, TopicManager)
  * `src/faust/tables/manager.py`  (TableManager)

Python dictionaries are modelled as association lists (`List (κ × β)`),
with lookup/insert/erase operating on the first occurrence of a key, so
that maps built from the empty dictionary have unique keys, mirroring
`dict` semantics.  Python `None` becomes `Option.none`; exceptions become
`Except` results; awaited effects are collected into explicit effect lists.
-/

deriving instance DecidableEq for Except

namespace Faust

/-! ## Association lists: the model of Python `dict` -/

/-- `d.get(k)` / `d[k]` lookup (first binding of the key). -/
def lookupA {κ β : Type} [DecidableEq κ] : List (κ × β) → κ → Option β
  | [], _ => none
  | (k, v) :: rest, a => if a = k then some v else lookupA rest a

/-- `d[k] = v`: replace the first binding of `k`, or append a new one. -/
def insertA {κ β : Type} [DecidableEq κ] : List (κ × β) → κ → β → List (κ × β)
  | [], k, v => [(k, v)]
  | (k', v') :: rest, k, v =>
      if k = k' then (k, v) :: rest else (k', v') :: insertA rest k v

/-- `del d[k]`: drop the first binding of `k` (no-op when absent). -/
def eraseA {κ β : Type} [DecidableEq κ] : List (κ × β) → κ → List (κ × β)
  | [], _ => []
  | (k', v') :: rest, k => if k = k' then rest else (k', v') :: eraseA rest k

/-- Sum of a measure of the values of an association list. -/
def sumA {κ β : Type} (μ : β → Nat) (l : List (κ × β)) : Nat :=
  (l.map (fun p => μ p.2)).sum

/-! ## Topic-partitions and the attachment buffer (`src/faust/app/_attached.py`)

`Attachments._pending : TP → (offset → List[FutureMessage])` is a
`defaultdict` of `defaultdict(list)`.  A `FutureMessage` is identified by
its object identity, modelled as a natural-number id: `put` creates a fresh
`FutureMessage` on each call (`chan.as_future_message(...)`). -/

/-- Kafka topic-partition pair. -/
structure TP where
  topic : String
  partition : Nat
deriving DecidableEq, Repr

/-- Identity of a `FutureMessage` object. -/
abbrev FMId := Nat

/-- Inner map `offset → list of attached FutureMessages`. -/
abbrev Inner := List (Int × List FMId)

/-- `Attachments._pending : TP → (offset → List[FutureMessage])`. -/
abbrev Buffer := List (TP × Inner)

/-- `Attachments.put`: `self._pending[message.tp][message.offset].append(fut)`
(both `defaultdict` levels create their entry on access). -/
def put (b : Buffer) (tp : TP) (offset : Int) (fm : FMId) : Buffer :=
  let inner := (lookupA b tp).getD []
  insertA b tp (insertA inner offset (((lookupA inner offset).getD []) ++ [fm]))

/-- `Attachments.commit` composed with `Attachments._attachments_for`:
`attached = self._pending[tp].pop(offset, None)` (the `defaultdict` access
materialises `self._pending[tp]`), then every `fut` in `attached` is passed
to `channel.publish_message(fut, wait=False)`.  Returns the new buffer and
the list of FutureMessages published by this call. -/
def commit (b : Buffer) (tp : TP) (offset : Int) : Buffer × List FMId :=
  let inner := (lookupA b tp).getD []
  match lookupA inner offset with
  | none => (insertA b tp inner, [])
  | some fms => (insertA b tp (eraseA inner offset), fms)

/-- `buffer[tp][off]` as seen from outside: `none` when either key is absent. -/
def lookupInner (b : Buffer) (tp : TP) (offset : Int) : Option (List FMId) :=
  match lookupA b tp with
  | none => none
  | some inner => lookupA inner offset

/-- Well-formedness shared by every Python `dict`: keys are unique at both
levels of the buffer.  Holds for every buffer reachable from `__init__`'s
empty `defaultdict`. -/
def WFbuf (b : Buffer) : Prop :=
  (b.map Prod.fst).Nodup ∧ ∀ p ∈ b, (p.2.map Prod.fst).Nodup

instance : DecidablePred WFbuf := fun b => by
  unfold WFbuf; infer_instance

/-- Occurrences of FutureMessage `x` in one attachment list. -/
def countL (x : FMId) (fms : List FMId) : Nat :=
  fms.count x

/-- Occurrences of FutureMessage `x` in one inner offset map. -/
def countInner (x : FMId) (i : Inner) : Nat :=
  sumA (countL x) i

/-- Occurrences of FutureMessage `x` in the whole buffer. -/
def countBuf (x : FMId) (b : Buffer) : Nat :=
  sumA (countInner x) b

/-- The operations user code and the commit path perform on the attachment
buffer.  `revoke` records a partition revocation: no code in
`src/faust/app/_attached.py` (nor any caller in the repository) touches
`_pending` when a partition is revoked, so it leaves the buffer unchanged. -/
inductive AttachOp
  | put (tp : TP) (offset : Int) (fm : FMId)
  | commit (tp : TP) (offset : Int)
  | revoke (tp : TP)
deriving DecidableEq, Repr

/-- Run a sequence of buffer operations, collecting every FutureMessage
publish that the `commit` calls perform, in order. -/
def runOps : Buffer → List AttachOp → Buffer × List FMId
  | b, [] => (b, [])
  | b, .put tp offset fm :: rest => runOps (put b tp offset fm) rest
  | b, .commit tp offset :: rest =>
      let r := commit b tp offset
      let r2 := runOps r.1 rest
      (r2.1, r.2 ++ r2.2)
  | b, .revoke _ :: rest => runOps b rest

/-- How many `put` operations of the trace enqueue FutureMessage `x`. -/
def putsCount (x : FMId) : List AttachOp → Nat
  | [] => 0
  | .put _ _ fm :: rest => (if fm = x then 1 else 0) + putsCount x rest
  | .commit _ _ :: rest => putsCount x rest
  | .revoke _ :: rest => putsCount x rest

/-! ## Topic (`src/faust/topics.py`, class `Topic`)

`key_type`/`value_type` are forwarded to `Channel.__init__`
(`faust/channels.py`, not under `src/`), which stores them; per the spec's
data model a Topic carries a key model and a value model, so they are kept
as plain fields here.  Model types, retention spans and broker config
values only need equality, so they are modelled as `Option String`,
`Option Int` and `List (String × String)`. -/

/-- The application attributes `Topic` reads (`app.default_partitions`,
`app.replication_factor`). -/
structure AppConf where
  default_partitions : Int
  replication_factor : Int
deriving DecidableEq, Repr

/-- §7's taxonomy for the exceptions raised in `topics.py`:
`TypeError('Cannot specify both topics and pattern')` and
`ValueError('Cannot add prefix/suffix to Topic with pattern')` are
`badTopicSpec`; `ValueError('Topic cannot have 0 (zero partitions)')` is
`zeroPartitions`. -/
inductive TopicError
  | badTopicSpec
  | zeroPartitions
deriving DecidableEq, Repr

/-- The configuration a constructed `Topic` instance holds. -/
structure Topic where
  topics : Option (List String)
  pattern : Option String
  key_type : Option String
  value_type : Option String
  partitions : Int
  retention : Option Int
  compacting : Option Bool
  deleting : Option Bool
  replicas : Int
  config : List (String × String)
deriving DecidableEq, Repr

/-- Python truthiness of an optional string (`None` and `''` are falsy). -/
def truthyStr : Option String → Bool
  | none => false
  | some s => !(s == "")

/-- Python truthiness of an optional list (`None` and `[]` are falsy). -/
def truthyTopics : Option (List String) → Bool
  | none => false
  | some l => !l.isEmpty

/-- The `Topic.pattern` setter: `if pattern and self.topics: raise TypeError`;
a string pattern is compiled (`re.compile`), which keeps the same text, so
the stored pattern is modelled by the string itself.  A compiled pattern
object is always truthy, so "has a pattern" is `Option.isSome` downstream. -/
def setPattern (topics : Option (List String)) (pattern : Option String) :
    Except TopicError (Option String) :=
  if truthyStr pattern && truthyTopics topics then .error .badTopicSpec
  else .ok pattern

/-- The `Topic.partitions` setter:
`if partitions is None: partitions = self.app.default_partitions`, then
`if partitions == 0: raise ValueError('Topic cannot have 0 (zero partitions)')`,
else the value is stored unchanged. -/
def setPartitions (defaultPartitions : Int) (partitions : Option Int) :
    Except TopicError Int :=
  let p := partitions.getD defaultPartitions
  if p = 0 then .error .zeroPartitions else .ok p

/-- The `Topic.replicas` setter: `None` is replaced by
`self.app.replication_factor`; no other check. -/
def setReplicas (replicationFactor : Int) (replicas : Option Int) : Int :=
  replicas.getD replicationFactor

/-- `Topic.__init__`: stores `topics` raw, then runs the `pattern`,
`partitions` and `replicas` setters in that order (the pattern check fires
before the partitions check), and stores `config or {}`. -/
def mkTopic (app : AppConf) (topics : Option (List String))
    (pattern : Option String) (key_type value_type : Option String)
    (partitions : Option Int) (retention : Option Int)
    (compacting deleting : Option Bool) (replicas : Option Int)
    (config : Option (List (String × String))) : Except TopicError Topic :=
  match setPattern topics pattern with
  | .error e => .error e
  | .ok pat =>
      match setPartitions app.default_partitions partitions with
      | .error e => .error e
      | .ok parts =>
          .ok { topics := topics
                pattern := pat
                key_type := key_type
                value_type := value_type
                partitions := parts
                retention := retention
                compacting := compacting
                deleting := deleting
                replicas := setReplicas app.replication_factor replicas
                config := config.getD [] }

/-- `Topic.derive`.  Mirrors the source line by line:

* `topics = self.topics if topics is None else topics`;
* `if suffix or prefix: if self.pattern: raise ValueError(...)` — the
  statement `topics = [f'{prefix}{topic}{suffix}' for topic in topics]`
  stands AFTER the `raise`, inside `if self.pattern:`, so it is
  unreachable and the names pass through unwrapped;
* the constructor is called with every field of `self` as default except
  `replicas`, which is not passed at all (so the derived topic's replica
  count is re-resolved from `app.replication_factor`). -/
def derive (app : AppConf) (t : Topic) (topics : Option (List String))
    (key_type value_type : Option String) (partitions : Option Int)
    (retention : Option Int) (compacting deleting : Option Bool)
    (config : Option (List (String × String))) (pre suf : String) :
    Except TopicError Topic :=
  let topics2 := match topics with
    | none => t.topics
    | some ts => some ts
  if (!(suf == "") || !(pre == "")) && t.pattern.isSome then
    .error .badTopicSpec
  else
    mkTopic app topics2 t.pattern
      (match key_type with | none => t.key_type | some v => some v)
      (match value_type with | none => t.value_type | some v => some v)
      (some (match partitions with | none => t.partitions | some v => v))
      (match retention with | none => t.retention | some v => some v)
      (match compacting with | none => t.compacting | some v => some v)
      (match deleting with | none => t.deleting | some v => some v)
      none
      (some (match config with | none => t.config | some v => v))

/-- An application with `default_partitions = 8` and
`replication_factor = 1`, used by the concrete scenarios. -/
def appEx : AppConf := ⟨8, 1⟩

/-- `Topic(app, topics=["t1"], partitions=8)` (spec scenario S3). -/
def t3 : Topic :=
  { topics := some ["t1"], pattern := none, key_type := none,
    value_type := none, partitions := 8, retention := none,
    compacting := none, deleting := none, replicas := 1, config := [] }

/-- `Topic(app, topics=["t1"], partitions=8, replicas=5)`. -/
def t9 : Topic :=
  { topics := some ["t1"], pattern := none, key_type := none,
    value_type := none, partitions := 8, retention := none,
    compacting := none, deleting := none, replicas := 5, config := [] }

/-- What `t9.derive()` with no overrides returns: every field copied except
`replicas`, which is re-resolved to `appEx.replication_factor = 1`. -/
def d9 : Topic :=
  { topics := some ["t1"], pattern := none, key_type := none,
    value_type := none, partitions := 8, retention := none,
    compacting := none, deleting := none, replicas := 1, config := [] }

/-- `Topic(app, pattern="^x$")`: a pattern topic. -/
def tP8 : Topic :=
  { topics := none, pattern := some "^x$", key_type := none,
    value_type := none, partitions := 8, retention := none,
    compacting := none, deleting := none, replicas := 1, config := [] }

/-! ## TopicManager fan-out (`src/faust/topics.py`, `_compile_message_handler`)

The handler's interactions with the message and the pending-task queue,
in program order.  Channels are identified by natural-number ids;
`_topicmap : topic name → set of channels` is an association list. -/

/-- One observable step of `on_message`. -/
inductive MsgEffect
  | increfBulk (count : Nat)
  | enqueueDeliver (channel : Nat)
deriving DecidableEq, Repr

/-- `on_message(message)`:
`channels = list(self._topicmap[message.topic])` (`defaultdict(set)`,
missing topic yields the empty set), then `message.incref_bulk(channels)`
— one bulk increment of the reference count by `len(channels)` — and then
`add_pending_task(channel.deliver(message))` for each channel. -/
def onMessageEffects (topicmap : List (String × List Nat)) (topic : String) :
    List MsgEffect :=
  let channels := (lookupA topicmap topic).getD []
  MsgEffect.increfBulk channels.length :: channels.map MsgEffect.enqueueDeliver

/-- Total amount added to the message's reference count by a run. -/
def increfTotal : List MsgEffect → Nat
  | [] => 0
  | .increfBulk k :: rest => k + increfTotal rest
  | .enqueueDeliver _ :: rest => increfTotal rest

/-- Number of reference-count operations in a run. -/
def increfOps : List MsgEffect → Nat
  | [] => 0
  | .increfBulk _ :: rest => 1 + increfOps rest
  | .enqueueDeliver _ :: rest => increfOps rest

/-- The channels a run enqueues a delivery for, in order. -/
def deliveredChannels : List MsgEffect → List Nat
  | [] => []
  | .increfBulk _ :: rest => deliveredChannels rest
  | .enqueueDeliver c :: rest => c :: deliveredChannels rest

/-! ## TableManager (`src/faust/tables/manager.py`) -/

/-- §7's taxonomy for the exceptions raised in `TableManager.add`:
`RuntimeError('Too late to add tables at this point')` is `addTooLate`;
`ValueError('Table with name ... already exists')` is `duplicateTable`. -/
inductive TableError
  | addTooLate
  | duplicateTable
deriving DecidableEq, Repr

/-- `TableManager.add(table)`: raise `addTooLate` if the
`_recovery_started` latch is set; raise `duplicateTable` if
`table.name in self`; otherwise `self[table.name] = table; return table`.
Tables are identified by natural-number ids; the result pairs the returned
value with the (unchanged on error) registered-table mapping. -/
def addTable (recovery_started : Bool) (tables : List (String × Nat))
    (name : String) (t : Nat) : Except TableError Nat × List (String × Nat) :=
  if recovery_started then (.error .addTooLate, tables)
  else if (lookupA tables name).isSome then (.error .duplicateTable, tables)
  else (.ok t, insertA tables name t)

/-- `TableManager._table_offsets : Counter[TP]`, read through
`.get(tp, -1)`. -/
abbrev OffMap := List (TP × Int)

/-- `self._table_offsets.get(tp, -1)`. -/
def getOff (m : OffMap) (tp : TP) : Int :=
  (lookupA m tp).getD (-1)

/-- `TableManager._sync_offsets(reader)`: for every `(tp, offset)` in
`reader.offsets`, if `offset >= 0` then
`self._table_offsets[tp] = max(self._table_offsets.get(tp, -1), offset)`;
negative offsets (the `-1` unknown sentinel) are skipped. -/
def sync_offsets (m : OffMap) (readerOffsets : List (TP × Int)) : OffMap :=
  readerOffsets.foldl
    (fun acc p =>
      if 0 ≤ p.2 then insertA acc p.1 (max (getOff acc p.1) p.2) else acc) m

/-- `TableManager._sync_persisted_offsets(table, tps)`: for every `tp`,
if `table.persisted_offset(tp)` is not `None` then
`self._table_offsets[tp] = max(self._table_offsets.get(tp, -1), persisted)`. -/
def sync_persisted_offsets (m : OffMap) (persisted : TP → Option Int)
    (tps : List TP) : OffMap :=
  tps.foldl
    (fun acc tp =>
      match persisted tp with
      | none => acc
      | some p => insertA acc tp (max (getOff acc tp) p)) m

/-- The events that write `_table_offsets` during the worker's lifetime:
a reviver's or stopped standby's offsets folded by `_sync_offsets`, or a
table's persisted offsets folded by `_sync_persisted_offsets`. -/
inductive SyncEv
  | reader (offsets : List (TP × Int))
  | persisted (f : TP → Option Int) (tps : List TP)

/-- Replay a lifetime of offset-sync events. -/
def runSyncs : OffMap → List SyncEv → OffMap
  | m, [] => m
  | m, .reader offs :: rest => runSyncs (sync_offsets m offs) rest
  | m, .persisted f tps :: rest => runSyncs (sync_persisted_offsets m f tps) rest

/-- What the tail of `TableManager._recover` did in one recovery cycle. -/
structure RecoveryEffects where
  recover_callbacks_called : Bool
  performed_seek : Bool
  standbys_started : Bool
  recovery_completed_set : Bool
  resumed_partitions : List TP
deriving DecidableEq, Repr

/-- The conditional tail of `TableManager._recover`:
`did_recover = all(reviver.recovered() for reviver in table_revivers)`
(returned by `_recover_changelogs`); then
`if did_recover and not self._stopped.is_set():` call the tables' recover
callbacks, `consumer.perform_seek()`, `_start_standbys`, set the
`recovery_completed` latch and resume every assigned partition that is not
a changelog partition (`_is_changelog_tp`: its topic is a changelog topic);
else only log "Recovery interrupted". -/
def recoverTail (reviverRecovered : List Bool) (stopped : Bool)
    (assigned : List TP) (changelogTopics : List String) : RecoveryEffects :=
  let did_recover := reviverRecovered.all (fun r => r)
  if did_recover && !stopped then
    { recover_callbacks_called := true
      performed_seek := true
      standbys_started := true
      recovery_completed_set := true
      resumed_partitions :=
        assigned.filter (fun tp => !(changelogTopics.contains tp.topic)) }
  else
    { recover_callbacks_called := false
      performed_seek := false
      standbys_started := false
      recovery_completed_set := false
      resumed_partitions := [] }

/-! ## Association-list lemmas -/

theorem lookupA_insertA_self {κ β : Type} [DecidableEq κ]
    (l : List (κ × β)) (k : κ) (v : β) : lookupA (insertA l k v) k = some v := by
  induction l with
  | nil => simp [insertA, lookupA]
  | cons hd tl ih =>
      obtain ⟨k', v'⟩ := hd
      by_cases hk : k = k' <;> simp [insertA, lookupA, hk, ih]

theorem lookupA_insertA_ne {κ β : Type} [DecidableEq κ]
    (l : List (κ × β)) (k a : κ) (v : β) (h : a ≠ k) :
    lookupA (insertA l k v) a = lookupA l a := by
  induction l with
  | nil => simp [insertA, lookupA, h]
  | cons hd tl ih =>
      obtain ⟨k', v'⟩ := hd
      by_cases hk : k = k'
      · subst hk; simp [insertA, lookupA, h]
      · by_cases ha : a = k' <;> simp [insertA, lookupA, hk, ha, ih]

theorem lookupA_eq_none_of_not_mem {κ β : Type} [DecidableEq κ]
    (l : List (κ × β)) (k : κ) (h : k ∉ l.map Prod.fst) : lookupA l k = none := by
  induction l with
  | nil => rfl
  | cons hd tl ih =>
      obtain ⟨k', v'⟩ := hd
      simp only [List.map_cons, List.mem_cons] at h
      push_neg at h
      simp [lookupA, h.1, ih h.2]

theorem lookupA_eraseA_self {κ β : Type} [DecidableEq κ]
    (l : List (κ × β)) (k : κ) (hnd : (l.map Prod.fst).Nodup) :
    lookupA (eraseA l k) k = none := by
  induction l with
  | nil => simp [eraseA, lookupA]
  | cons hd tl ih =>
      obtain ⟨k', v'⟩ := hd
      simp only [List.map_cons, List.nodup_cons] at hnd
      by_cases hk : k = k'
      · subst hk
        simpa [eraseA] using lookupA_eq_none_of_not_mem tl k hnd.1
      · simp only [eraseA, if_neg hk, lookupA, if_neg hk]
        exact ih hnd.2

theorem lookupA_eraseA_ne {κ β : Type} [DecidableEq κ]
    (l : List (κ × β)) (k a : κ) (h : a ≠ k) :
    lookupA (eraseA l k) a = lookupA l a := by
  induction l with
  | nil => simp [eraseA]
  | cons hd tl ih =>
      obtain ⟨k', v'⟩ := hd
      by_cases hk : k = k'
      · subst hk; simp [eraseA, lookupA, h]
      · by_cases ha : a = k' <;> simp [eraseA, lookupA, hk, ha, ih]

theorem insertA_cons_self {κ β : Type} [DecidableEq κ]
    (tl : List (κ × β)) (k : κ) (v v' : β) :
    insertA ((k, v') :: tl) k v = (k, v) :: tl := by
  simp [insertA]

theorem insertA_cons_ne {κ β : Type} [DecidableEq κ]
    (tl : List (κ × β)) (k k' : κ) (v v' : β) (h : k ≠ k') :
    insertA ((k', v') :: tl) k v = (k', v') :: insertA tl k v := by
  simp [insertA, h]

theorem keys_insertA_subset {κ β : Type} [DecidableEq κ]
    (l : List (κ × β)) (k : κ) (v : β) (a : κ) :
    a ∈ (insertA l k v).map Prod.fst → a ∈ l.map Prod.fst ∨ a = k := by
  induction l with
  | nil => simp [insertA]
  | cons hd tl ih =>
      obtain ⟨k', v'⟩ := hd
      by_cases hk : k = k'
      · subst hk
        rw [insertA_cons_self]
        simp only [List.map_cons, List.mem_cons]
        tauto
      · rw [insertA_cons_ne tl k k' v v' hk]
        simp only [List.map_cons, List.mem_cons]
        intro h
        rcases h with h | h
        · tauto
        · rcases ih h with h' | h' <;> tauto

theorem nodup_keys_insertA {κ β : Type} [DecidableEq κ]
    (l : List (κ × β)) (k : κ) (v : β) (hnd : (l.map Prod.fst).Nodup) :
    ((insertA l k v).map Prod.fst).Nodup := by
  induction l with
  | nil => simp [insertA]
  | cons hd tl ih =>
      obtain ⟨k', v'⟩ := hd
      simp only [List.map_cons, List.nodup_cons] at hnd
      by_cases hk : k = k'
      · subst hk
        simpa [insertA, List.nodup_cons] using hnd
      · simp only [insertA, if_neg hk, List.map_cons, List.nodup_cons]
        refine ⟨fun hmem => ?_, ih hnd.2⟩
        rcases keys_insertA_subset tl k v k' hmem with h | h
        · exact hnd.1 h
        · exact hk h.symm

theorem eraseA_sublist {κ β : Type} [DecidableEq κ] (l : List (κ × β)) (k : κ) :
    (eraseA l k).Sublist l := by
  induction l with
  | nil => simp [eraseA]
  | cons hd tl ih =>
      obtain ⟨k', v'⟩ := hd
      by_cases hk : k = k'
      · simp [eraseA, hk]
      · simpa [eraseA, hk] using ih.cons₂ (k', v')

theorem nodup_keys_eraseA {κ β : Type} [DecidableEq κ]
    (l : List (κ × β)) (k : κ) (hnd : (l.map Prod.fst).Nodup) :
    ((eraseA l k).map Prod.fst).Nodup :=
  (((eraseA_sublist l k).map Prod.fst)).nodup hnd

theorem mem_insertA_of_mem {κ β : Type} [DecidableEq κ]
    (l : List (κ × β)) (k : κ) (v : β) (p : κ × β) :
    p ∈ insertA l k v → p = (k, v) ∨ p ∈ l := by
  induction l with
  | nil => simp [insertA]
  | cons hd tl ih =>
      obtain ⟨k', v'⟩ := hd
      by_cases hk : k = k'
      · subst hk
        rw [insertA_cons_self]
        simp only [List.mem_cons]
        tauto
      · rw [insertA_cons_ne tl k k' v v' hk]
        simp only [List.mem_cons]
        intro h
        rcases h with h | h
        · tauto
        · rcases ih h with h' | h' <;> tauto

theorem mem_of_lookupA_eq_some {κ β : Type} [DecidableEq κ]
    (l : List (κ × β)) (k : κ) (v : β) (h : lookupA l k = some v) : (k, v) ∈ l := by
  induction l with
  | nil => cases h
  | cons hd tl ih =>
      obtain ⟨k', v'⟩ := hd
      by_cases hk : k = k'
      · subst hk
        simp [lookupA] at h
        subst h; exact List.mem_cons_self _ _
      · simp only [lookupA, if_neg hk] at h
        exact List.mem_cons_of_mem _ (ih h)

/-! ## Attachment buffer: commit removes the key and publishes at most once -/

/-- After `commit(tp, off)`, `buffer[tp][off]` is absent. -/
theorem lookupInner_commit_self (b : Buffer) (tp : TP) (offset : Int)
    (hwf : WFbuf b) : lookupInner (commit b tp offset).1 tp offset = none := by
  unfold commit lookupInner
  cases hb : lookupA b tp with
  | none => simp [lookupA_insertA_self, lookupA]
  | some inner =>
      cases hi : lookupA inner offset with
      | none => simp [hb, hi, lookupA_insertA_self]
      | some fms =>
          have hnd : (inner.map Prod.fst).Nodup :=
            hwf.2 (tp, inner) (mem_of_lookupA_eq_some b tp inner hb)
          simp [hb, hi, lookupA_insertA_self, lookupA_eraseA_self inner offset hnd]

/-- A second `commit(tp, off)` on the state a first commit left behind
publishes nothing: the buffer key was removed before publishes were awaited. -/
theorem commit_commit_publishes_nothing (b : Buffer) (tp : TP) (offset : Int)
    (hwf : WFbuf b) : (commit (commit b tp offset).1 tp offset).2 = [] := by
  have habs := lookupInner_commit_self b tp offset hwf
  generalize hgen : (commit b tp offset).1 = b2 at habs ⊢
  unfold lookupInner at habs
  cases hb : lookupA b2 tp with
  | none => simp [commit, hb, lookupA]
  | some inner' =>
      rw [hb] at habs
      simp only [] at habs
      simp [commit, hb, habs]

theorem sumA_insertA_none {κ β : Type} [DecidableEq κ] (μ : β → Nat)
    (l : List (κ × β)) (k : κ) (v : β) (h : lookupA l k = none) :
    sumA μ (insertA l k v) = sumA μ l + μ v := by
  induction l with
  | nil => simp [insertA, sumA]
  | cons hd tl ih =>
      obtain ⟨k', v'⟩ := hd
      by_cases hk : k = k'
      · subst hk; simp [lookupA] at h
      · simp only [lookupA, if_neg hk] at h
        rw [insertA_cons_ne tl k k' v v' hk]
        simp only [sumA, List.map_cons, List.sum_cons] at *
        rw [ih h]
        omega

theorem sumA_insertA_some {κ β : Type} [DecidableEq κ] (μ : β → Nat)
    (l : List (κ × β)) (k : κ) (v w : β) (h : lookupA l k = some w) :
    sumA μ (insertA l k v) + μ w = sumA μ l + μ v := by
  induction l with
  | nil => cases h
  | cons hd tl ih =>
      obtain ⟨k', v'⟩ := hd
      by_cases hk : k = k'
      · subst hk
        simp [lookupA] at h
        subst h
        rw [insertA_cons_self]
        simp only [sumA, List.map_cons, List.sum_cons]
        omega
      · simp only [lookupA, if_neg hk] at h
        rw [insertA_cons_ne tl k k' v v' hk]
        simp only [sumA, List.map_cons, List.sum_cons]
        have := ih h
        simp only [sumA] at this
        omega

theorem eraseA_of_lookupA_none {κ β : Type} [DecidableEq κ]
    (l : List (κ × β)) (k : κ) (h : lookupA l k = none) : eraseA l k = l := by
  induction l with
  | nil => rfl
  | cons hd tl ih =>
      obtain ⟨k', v'⟩ := hd
      by_cases hk : k = k'
      · subst hk; simp [lookupA] at h
      · simp only [lookupA, if_neg hk] at h
        simp [eraseA, hk, ih h]

theorem eraseA_cons_self {κ β : Type} [DecidableEq κ]
    (tl : List (κ × β)) (k : κ) (v' : β) :
    eraseA ((k, v') :: tl) k = tl := by
  simp [eraseA]

theorem sumA_eraseA_some {κ β : Type} [DecidableEq κ] (μ : β → Nat)
    (l : List (κ × β)) (k : κ) (w : β) (h : lookupA l k = some w) :
    sumA μ (eraseA l k) + μ w = sumA μ l := by
  induction l with
  | nil => cases h
  | cons hd tl ih =>
      obtain ⟨k', v'⟩ := hd
      by_cases hk : k = k'
      · subst hk
        simp [lookupA] at h
        subst h
        rw [eraseA_cons_self]
        simp only [sumA, List.map_cons, List.sum_cons]
        omega
      · simp only [lookupA, if_neg hk] at h
        simp only [eraseA, if_neg hk, sumA, List.map_cons, List.sum_cons]
        have := ih h
        simp only [sumA] at this
        omega

/-- `put` adds exactly one occurrence of the enqueued FutureMessage. -/
theorem countBuf_put (b : Buffer) (tp : TP) (offset : Int) (fm : FMId)
    (x : FMId) :
    countBuf x (put b tp offset fm) = countBuf x b + (if fm = x then 1 else 0) := by
  have hsingle : countL x [fm] = (if fm = x then 1 else 0) := by
    by_cases h : fm = x
    · subst h; simp [countL]
    · simp [countL, h, Ne.symm h]
  unfold put countBuf
  cases hb : lookupA b tp with
  | none =>
      simp only [hb, Option.getD_none, lookupA, List.nil_append]
      rw [sumA_insertA_none (countInner x) b tp _ hb]
      simp only [countInner, insertA, sumA, List.map_cons, List.map_nil,
        List.sum_cons, List.sum_nil, hsingle]
      omega
  | some inner =>
      simp only [hb, Option.getD_some]
      cases hi : lookupA inner offset with
      | none =>
          simp only [hi, Option.getD_none, List.nil_append]
          have houter := sumA_insertA_some (countInner x) b tp
            (insertA inner offset [fm]) inner hb
          have hinner := sumA_insertA_none (countL x) inner offset [fm] hi
          simp only [countInner] at houter ⊢
          rw [hsingle] at hinner
          omega
      | some old =>
          simp only [hi, Option.getD_some]
          have houter := sumA_insertA_some (countInner x) b tp
            (insertA inner offset (old ++ [fm])) inner hb
          have hinner := sumA_insertA_some (countL x) inner offset
            (old ++ [fm]) old hi
          have happ : countL x (old ++ [fm]) = countL x old + countL x [fm] := by
            simp [countL, List.count_append]
          rw [happ, hsingle] at hinner
          simp only [countInner] at houter ⊢
          omega

/-- `commit` moves occurrences from the buffer to the published list. -/
theorem countBuf_commit (b : Buffer) (tp : TP) (offset : Int) (x : FMId) :
    countBuf x (commit b tp offset).1 + ((commit b tp offset).2.count x) =
      countBuf x b := by
  unfold commit countBuf
  cases hb : lookupA b tp with
  | none =>
      simp only [hb, Option.getD_none, lookupA]
      rw [sumA_insertA_none (countInner x) b tp _ hb]
      simp [countInner, sumA]
  | some inner =>
      simp only [hb, Option.getD_some]
      cases hi : lookupA inner offset with
      | none =>
          simp only [hi, List.count_nil]
          have houter := sumA_insertA_some (countInner x) b tp inner inner hb
          omega
      | some fms =>
          simp only [hi]
          have houter := sumA_insertA_some (countInner x) b tp
            (eraseA inner offset) inner hb
          have hinner := sumA_eraseA_some (countL x) inner offset fms hi
          simp only [countInner] at houter
          simp only [countL] at hinner
          omega

/-- Conservation over a whole trace: buffer occurrences plus published
occurrences equal initial occurrences plus the number of `put`s. -/
theorem runOps_count (ops : List AttachOp) (b : Buffer) (x : FMId) :
    countBuf x (runOps b ops).1 + ((runOps b ops).2.count x) =
      countBuf x b + putsCount x ops := by
  induction ops generalizing b with
  | nil => simp [runOps, putsCount]
  | cons op rest ih =>
      cases op with
      | put tp offset fm =>
          simp only [runOps, putsCount]
          rw [ih (put b tp offset fm), countBuf_put]
          omega
      | commit tp offset =>
          simp only [runOps, putsCount, List.count_append]
          have h1 := ih (commit b tp offset).1
          have h2 := countBuf_commit b tp offset x
          omega
      | revoke tp =>
          simp only [runOps, putsCount]
          exact ih b

/-- C1: After `commit(tp, off)` the attachment buffer no longer contains an
entry at `buffer[tp][off]`; the key is removed (`dict.pop`) before any
publish is awaited, so a second `commit(tp, off)` on the resulting state
publishes nothing; and over any trace of puts, commits and revocations
starting from the empty buffer in which each FutureMessage id is enqueued
by at most one `put` (each `put` creates a fresh `FutureMessage` object),
that FutureMessage is published at most once. -/
theorem commit_removes_key_and_publishes_at_most_once
    (b : Buffer) (tp : TP) (offset : Int) (ops : List AttachOp) (x : FMId)
    (hwf : WFbuf b) (hputs : putsCount x ops ≤ 1) :
    lookupInner (commit b tp offset).1 tp offset = none ∧
    (commit (commit b tp offset).1 tp offset).2 = [] ∧
    (runOps [] ops).2.count x ≤ 1 := by
  refine ⟨lookupInner_commit_self b tp offset hwf,
    commit_commit_publishes_nothing b tp offset hwf, ?_⟩
  have h := runOps_count ops [] x
  have hzero : countBuf x ([] : Buffer) = 0 := rfl
  omega

/-- Witness for C1 at a concrete buffer and trace: one attachment at
`(("A",0), 5)`, then a trace putting FutureMessage 7 there and committing
the offset twice. -/
theorem commit_removes_key_and_publishes_at_most_once_witness :
    WFbuf [(⟨"A", 0⟩, [(5, [7])])] ∧
    putsCount 7 [AttachOp.put ⟨"A", 0⟩ 5 7, AttachOp.commit ⟨"A", 0⟩ 5,
      AttachOp.commit ⟨"A", 0⟩ 5] ≤ 1 ∧
    (lookupInner (commit [(⟨"A", 0⟩, [(5, [7])])] ⟨"A", 0⟩ 5).1 ⟨"A", 0⟩ 5 = none ∧
     (commit (commit [(⟨"A", 0⟩, [(5, [7])])] ⟨"A", 0⟩ 5).1 ⟨"A", 0⟩ 5).2 = [] ∧
     (runOps [] [AttachOp.put ⟨"A", 0⟩ 5 7, AttachOp.commit ⟨"A", 0⟩ 5,
       AttachOp.commit ⟨"A", 0⟩ 5]).2.count 7 ≤ 1) :=
  ⟨by decide, by decide,
   commit_removes_key_and_publishes_at_most_once
     [(⟨"A", 0⟩, [(5, [7])])] ⟨"A", 0⟩ 5
     [AttachOp.put ⟨"A", 0⟩ 5 7, AttachOp.commit ⟨"A", 0⟩ 5,
      AttachOp.commit ⟨"A", 0⟩ 5] 7 (by decide) (by decide)⟩

/-- C2: nothing in the source clears the attachment buffer on partition
revocation.  After `put` of FutureMessage 7 at `(("A",0), 5)` followed by a
revocation of `("A",0)`, the attachment is still pending in the buffer, and
a later `commit(("A",0), 5)` publishes it — not the claimed
drop-without-publish. -/
theorem revocation_leaves_attachments_pending :
    lookupInner (runOps [] [AttachOp.put ⟨"A", 0⟩ 5 7,
      AttachOp.revoke ⟨"A", 0⟩]).1 ⟨"A", 0⟩ 5 = some [7] ∧
    (runOps [] [AttachOp.put ⟨"A", 0⟩ 5 7, AttachOp.revoke ⟨"A", 0⟩,
      AttachOp.commit ⟨"A", 0⟩ 5]).2 = [7] := by
  decide

/-! ## Topic: construction and derive -/

/-- C3: `Topic(topics=["t1"], partitions=8)` derived with `prefix="p-"`,
`suffix="-s"` returns a topic whose names are still `["t1"]`, not
`["p-t1-s"]` (partitions inherited as 8): in the source, the statement
wrapping the names stands after the `raise` inside `if self.pattern:` and
is unreachable, so prefix and suffix are silently dropped for name-list
topics. -/
theorem derive_drops_prefix_suffix_on_name_topics :
    mkTopic appEx (some ["t1"]) none none none (some 8) none none none none
      none = Except.ok t3 ∧
    derive appEx t3 none none none none none none none none "p-" "-s" =
      Except.ok t3 ∧
    t3.topics = some ["t1"] ∧ t3.partitions = 8 ∧
    t3.topics ≠ some ["p-t1-s"] := by
  decide

/-- C8: constructing a Topic with a non-empty topic-name list and a
non-empty pattern fails with the both-topics-and-pattern error, and
`derive` fails whenever a non-empty prefix or suffix is supplied on a
Topic that has a pattern. -/
theorem topics_and_pattern_rejected (app : AppConf) (ts : List String)
    (p : String) (key_type value_type : Option String)
    (partitions retention : Option Int) (compacting deleting : Option Bool)
    (replicas : Option Int) (config : Option (List (String × String)))
    (t : Topic) (dtopics : Option (List String)) (dkey dvalue : Option String)
    (dparts dret : Option Int) (dcomp ddel : Option Bool)
    (dconfig : Option (List (String × String))) (pre suf : String)
    (hts : ts ≠ []) (hp : p ≠ "") (hpat : t.pattern.isSome)
    (hps : pre ≠ "" ∨ suf ≠ "") :
    mkTopic app (some ts) (some p) key_type value_type partitions retention
      compacting deleting replicas config =
      Except.error TopicError.badTopicSpec ∧
    derive app t dtopics dkey dvalue dparts dret dcomp ddel dconfig pre suf =
      Except.error TopicError.badTopicSpec := by
  constructor
  · have h1 : truthyStr (some p) = true := by simp [truthyStr, hp]
    have h2 : truthyTopics (some ts) = true := by
      cases ts with
      | nil => exact absurd rfl hts
      | cons a l => simp [truthyTopics]
    simp [mkTopic, setPattern, h1, h2]
  · have h3 : (!(suf == "") || !(pre == "")) = true := by
      rcases hps with h | h <;> simp [h]
    simp [derive, h3, hpat]

/-- Witness for C8: `Topic(topics=["t1"], pattern="x")` is rejected, and
`tP8.derive(prefix="p-")` on the pattern topic `tP8` is rejected. -/
theorem topics_and_pattern_rejected_witness :
    (["t1"] ≠ ([] : List String)) ∧ ("x" ≠ "") ∧
    (tP8.pattern.isSome = true) ∧ ("p-" ≠ "" ∨ "" ≠ "") ∧
    (mkTopic appEx (some ["t1"]) (some "x") none none none none none none
       none none = Except.error TopicError.badTopicSpec ∧
     derive appEx tP8 none none none none none none none none "p-" "" =
       Except.error TopicError.badTopicSpec) :=
  ⟨by decide, by decide, by decide, Or.inl (by decide),
   topics_and_pattern_rejected appEx ["t1"] "x" none none none none none none
     none none tP8 none none none none none none none none "p-" ""
     (by decide) (by decide) (by decide) (Or.inl (by decide))⟩

/-- C9 counterexample: for `t9` (replicas 5) under `appEx`
(replication factor 1), `derive()` with no overrides — applied twice —
yields `d9` with `replicas = 1 ≠ 5`, so the derived configuration does not
equal the original's. -/
theorem derive_resets_replicas_counterexample :
    mkTopic appEx (some ["t1"]) none none none (some 8) none none none
      (some 5) none = Except.ok t9 ∧
    derive appEx t9 none none none none none none none none "" "" =
      Except.ok d9 ∧
    derive appEx d9 none none none none none none none none "" "" =
      Except.ok d9 ∧
    d9.replicas = 1 ∧ t9.replicas = 5 ∧ d9 ≠ t9 := by
  decide

/-- C9 (amended): for every constructed Topic, `derive` with no overrides,
applied twice, succeeds and preserves topics, pattern, key/value models,
partitions, retention, compacting, deleting and the config map; the
replication factor is NOT copied — it is re-resolved to the application's
replication factor. -/
theorem derive_empty_overrides_preserve_all_but_replicas (app : AppConf)
    (topics : Option (List String)) (pattern : Option String)
    (key_type value_type : Option String) (partitions retention : Option Int)
    (compacting deleting : Option Bool) (replicas : Option Int)
    (config : Option (List (String × String))) (t : Topic)
    (h : mkTopic app topics pattern key_type value_type partitions retention
      compacting deleting replicas config = Except.ok t) :
    ∃ d : Topic,
      derive app t none none none none none none none none "" "" =
        Except.ok d ∧
      derive app d none none none none none none none none "" "" =
        Except.ok d ∧
      d.topics = t.topics ∧ d.pattern = t.pattern ∧
      d.key_type = t.key_type ∧ d.value_type = t.value_type ∧
      d.partitions = t.partitions ∧ d.retention = t.retention ∧
      d.compacting = t.compacting ∧ d.deleting = t.deleting ∧
      d.config = t.config ∧ d.replicas = app.replication_factor := by
  unfold mkTopic at h
  cases hsp : setPattern topics pattern with
  | error e => rw [hsp] at h; cases h
  | ok pat =>
      rw [hsp] at h
      cases hpp : setPartitions app.default_partitions partitions with
      | error e => rw [hpp] at h; cases h
      | ok parts =>
          rw [hpp] at h
          simp only [Except.ok.injEq] at h
          subst h
          unfold setPattern at hsp
          cases hc : truthyStr pattern && truthyTopics topics with
          | true => rw [hc] at hsp; simp at hsp
          | false =>
              rw [hc] at hsp
              simp only [Bool.false_eq_true, if_false, Except.ok.injEq] at hsp
              subst hsp
              unfold setPartitions at hpp
              by_cases hz : (partitions.getD app.default_partitions) = 0
              · rw [if_pos hz] at hpp; cases hpp
              · rw [if_neg hz] at hpp
                simp only [Except.ok.injEq] at hpp
                subst hpp
                refine ⟨{ topics := topics, pattern := pattern,
                          key_type := key_type, value_type := value_type,
                          partitions := partitions.getD app.default_partitions,
                          retention := retention, compacting := compacting,
                          deleting := deleting,
                          replicas := setReplicas app.replication_factor none,
                          config := config.getD [] },
                  ?_, ?_, rfl, rfl, rfl, rfl, rfl, rfl, rfl, rfl, rfl, rfl⟩
                · simp [derive, mkTopic, setPattern, hc, setPartitions, hz,
                    setReplicas]
                · simp [derive, mkTopic, setPattern, hc, setPartitions, hz,
                    setReplicas]

/-- Witness for C9's amended statement at `t9` under `appEx`. -/
theorem derive_empty_overrides_witness :
    ∃ d : Topic,
      derive appEx t9 none none none none none none none none "" "" =
        Except.ok d ∧
      derive appEx d none none none none none none none none "" "" =
        Except.ok d ∧
      d.topics = t9.topics ∧ d.pattern = t9.pattern ∧
      d.key_type = t9.key_type ∧ d.value_type = t9.value_type ∧
      d.partitions = t9.partitions ∧ d.retention = t9.retention ∧
      d.compacting = t9.compacting ∧ d.deleting = t9.deleting ∧
      d.config = t9.config ∧ d.replicas = appEx.replication_factor :=
  derive_empty_overrides_preserve_all_but_replicas appEx (some ["t1"]) none
    none none (some 8) none none none (some 5) none t9 (by decide)

/-- C10 counterexample: with `app.default_partitions = 0`, setting the
partition count to `None` raises the zero-partitions error although the
supplied value is not 0 — the setter checks the effective value after the
default is substituted, so "raises iff the supplied value is exactly 0"
fails. -/
theorem partitions_none_with_zero_default :
    setPartitions 0 none = Except.error TopicError.zeroPartitions ∧
    (none : Option Int) ≠ some 0 := by
  decide

/-- C10 (amended): the partitions setter raises the zero-partitions error
iff the effective value — the supplied value, or the application's default
partition count when the supplied value is `None` — is exactly 0; `None`
is replaced by the default; every other integer, negative integers
included, is accepted and stored unchanged. -/
theorem setPartitions_rejects_effective_zero (d : Int) (v : Option Int)
    (p : Int) (hp : p ≠ 0) (hd : d ≠ 0) :
    (setPartitions d v = Except.error TopicError.zeroPartitions ↔
      v.getD d = 0) ∧
    setPartitions d (some p) = Except.ok p ∧
    setPartitions d none = Except.ok d := by
  unfold setPartitions
  refine ⟨?_, ?_, ?_⟩
  · by_cases h : v.getD d = 0 <;> simp [h]
  · simp [hp]
  · simp [hd]

/-- Witness for C10's amended statement: a negative count is stored, the
default replaces `None`, and `some 0` raises. -/
theorem setPartitions_rejects_effective_zero_witness :
    ((-3 : Int) ≠ 0) ∧ ((8 : Int) ≠ 0) ∧
    ((setPartitions 8 (some 0) = Except.error TopicError.zeroPartitions ↔
        (some (0 : Int)).getD 8 = 0) ∧
     setPartitions 8 (some (-3)) = Except.ok (-3) ∧
     setPartitions 8 none = Except.ok 8) :=
  ⟨by decide, by decide,
   setPartitions_rejects_effective_zero 8 (some 0) (-3) (by decide)
     (by decide)⟩

/-! ## TableManager: table_offsets is a monotone maximum -/

theorem getOff_insert_max_ge (m : OffMap) (k tp : TP) (v : Int) :
    getOff m tp ≤ getOff (insertA m k (max (getOff m k) v)) tp := by
  by_cases h : tp = k
  · subst h
    unfold getOff
    rw [lookupA_insertA_self]
    simp only [Option.getD_some]
    exact le_max_left _ _
  · unfold getOff
    rw [lookupA_insertA_ne m k tp _ h]

theorem getOff_sync_offsets_ge (ro : List (TP × Int)) (m : OffMap) (tp : TP) :
    getOff m tp ≤ getOff (sync_offsets m ro) tp := by
  induction ro generalizing m with
  | nil => exact le_refl _
  | cons p rest ih =>
      have hstep : sync_offsets m (p :: rest) =
          sync_offsets
            (if 0 ≤ p.2 then insertA m p.1 (max (getOff m p.1) p.2) else m)
            rest := rfl
      rw [hstep]
      by_cases h : 0 ≤ p.2
      · rw [if_pos h]
        exact le_trans (getOff_insert_max_ge m p.1 tp p.2) (ih _)
      · rw [if_neg h]
        exact ih m

theorem getOff_sync_persisted_ge (tps : List TP) (f : TP → Option Int)
    (m : OffMap) (tp : TP) :
    getOff m tp ≤ getOff (sync_persisted_offsets m f tps) tp := by
  induction tps generalizing m with
  | nil => exact le_refl _
  | cons q rest ih =>
      have hstep : sync_persisted_offsets m f (q :: rest) =
          sync_persisted_offsets
            (match f q with
             | none => m
             | some p => insertA m q (max (getOff m q) p)) f rest := rfl
      rw [hstep]
      cases hf : f q with
      | none => simp only [hf]; exact ih m
      | some p =>
          simp only [hf]
          exact le_trans (getOff_insert_max_ge m q tp p) (ih _)

theorem getOff_runSyncs_ge (evs : List SyncEv) (m : OffMap) (tp : TP) :
    getOff m tp ≤ getOff (runSyncs m evs) tp := by
  induction evs generalizing m with
  | nil => exact le_refl _
  | cons ev rest ih =>
      cases ev with
      | reader offs =>
          exact le_trans (getOff_sync_offsets_ge offs m tp) (ih _)
      | persisted f tps =>
          exact le_trans (getOff_sync_persisted_ge tps f m tp) (ih _)

/-- C4: the table manager's `table_offsets[tp]` (read as the Python code
reads it, `.get(tp, -1)`) is non-decreasing: a reader-offsets fold and a
persisted-offsets fold can only increase it; each fold step sets
`max(existing, observed)`; a negative observed offset (the `-1` unknown
sentinel) is skipped entirely; and over any lifetime of sync events the
value never decreases. -/
theorem table_offsets_monotone (m : OffMap) (tp : TP) (ro : List (TP × Int))
    (f : TP → Option Int) (tps : List TP) (v : Int) (rest : List (TP × Int))
    (evs : List SyncEv) :
    getOff m tp ≤ getOff (sync_offsets m ro) tp ∧
    getOff m tp ≤ getOff (sync_persisted_offsets m f tps) tp ∧
    getOff (sync_offsets m [(tp, v)]) tp =
      (if 0 ≤ v then max (getOff m tp) v else getOff m tp) ∧
    sync_offsets m ((tp, -1) :: rest) = sync_offsets m rest ∧
    getOff m tp ≤ getOff (runSyncs m evs) tp := by
  refine ⟨getOff_sync_offsets_ge ro m tp, getOff_sync_persisted_ge tps f m tp,
    ?_, ?_, getOff_runSyncs_ge evs m tp⟩
  · by_cases h : 0 ≤ v
    · simp only [sync_offsets, List.foldl_cons, List.foldl_nil, if_pos h]
      unfold getOff
      rw [lookupA_insertA_self]
      rfl
    · simp only [sync_offsets, List.foldl_cons, List.foldl_nil, if_neg h]
  · have hneg : ¬ (0 ≤ (-1 : Int)) := by decide
    simp only [sync_offsets, List.foldl_cons, if_neg hneg]

/-! ## TableManager: interrupted recovery has no effects -/

/-- C5: when a recovery cycle ends with some reviver not recovered, or
with the manager stopped (revoke during recovery stops the revivers and
sets `_stopped`), the tail of `_recover` takes the else-branch: recover
callbacks are not called, no seek is performed, no standby readers are
started, the recovery-completed latch is not set, and no paused partition
is resumed in that cycle. -/
theorem recovery_interrupted_no_effects (reviverRecovered : List Bool)
    (stopped : Bool) (assigned : List TP) (changelogTopics : List String)
    (h : (∃ r ∈ reviverRecovered, r = false) ∨ stopped = true) :
    recoverTail reviverRecovered stopped assigned changelogTopics =
      { recover_callbacks_called := false, performed_seek := false,
        standbys_started := false, recovery_completed_set := false,
        resumed_partitions := [] } := by
  unfold recoverTail
  rcases h with ⟨r, hr, hr0⟩ | hs
  · have hall : reviverRecovered.all (fun r => r) = false := by
      subst hr0
      exact List.all_eq_false.mpr ⟨false, hr, by simp⟩
    rw [hall]
    simp
  · subst hs
    simp

/-- Witness for C5: one reviver recovered, one not, manager not stopped. -/
theorem recovery_interrupted_no_effects_witness :
    ((∃ r ∈ [true, false], r = false) ∨ false = true) ∧
    recoverTail [true, false] false [⟨"t", 0⟩] ["T-log"] =
      { recover_callbacks_called := false, performed_seek := false,
        standbys_started := false, recovery_completed_set := false,
        resumed_partitions := [] } :=
  ⟨Or.inl ⟨false, by decide, rfl⟩,
   recovery_interrupted_no_effects [true, false] false [⟨"t", 0⟩] ["T-log"]
     (Or.inl ⟨false, by decide, rfl⟩)⟩

/-! ## TopicManager: fan-out increments the refcount in bulk, first -/

theorem increfTotal_map_deliver (ch : List Nat) :
    increfTotal (ch.map MsgEffect.enqueueDeliver) = 0 := by
  induction ch with
  | nil => rfl
  | cons c rest ih => simpa [increfTotal] using ih

theorem increfOps_map_deliver (ch : List Nat) :
    increfOps (ch.map MsgEffect.enqueueDeliver) = 0 := by
  induction ch with
  | nil => rfl
  | cons c rest ih => simpa [increfOps] using ih

theorem deliveredChannels_map_deliver (ch : List Nat) :
    deliveredChannels (ch.map MsgEffect.enqueueDeliver) = ch := by
  induction ch with
  | nil => rfl
  | cons c rest ih => simpa [deliveredChannels] using ih

/-- C6: for an inbound message on `topic` with `K` currently-subscribed
channels (the topic map's entry), `on_message` performs exactly one
reference-count operation, a bulk increment by exactly `K`, and it is the
first effect: every delivery enqueue sits at a strictly later position.
Every subscribed channel gets exactly one delivery enqueued. -/
theorem on_message_increfs_once_before_deliveries
    (topicmap : List (String × List Nat)) (topic : String) (j c : Nat)
    (hj : (onMessageEffects topicmap topic).get? j =
      some (MsgEffect.enqueueDeliver c)) :
    (onMessageEffects topicmap topic).head? =
      some (MsgEffect.increfBulk ((lookupA topicmap topic).getD []).length) ∧
    increfTotal (onMessageEffects topicmap topic) =
      ((lookupA topicmap topic).getD []).length ∧
    increfOps (onMessageEffects topicmap topic) = 1 ∧
    deliveredChannels (onMessageEffects topicmap topic) =
      (lookupA topicmap topic).getD [] ∧
    1 ≤ j := by
  refine ⟨rfl, ?_, ?_, ?_, ?_⟩
  · show increfTotal (MsgEffect.increfBulk _ :: _) = _
    simp [increfTotal, increfTotal_map_deliver]
  · show increfOps (MsgEffect.increfBulk _ :: _) = 1
    simp [increfOps, increfOps_map_deliver]
  · show deliveredChannels (MsgEffect.increfBulk _ :: _) = _
    simp [deliveredChannels, deliveredChannels_map_deliver]
  · cases j with
    | zero => simp [onMessageEffects] at hj
    | succ n => exact Nat.succ_le_succ (Nat.zero_le n)

/-- Witness for C6: topic "X" with channels 1 and 2; the delivery for
channel 2 sits at position 2, after the bulk incref by 2 at position 0. -/
theorem on_message_increfs_once_before_deliveries_witness :
    ((onMessageEffects [("X", [1, 2])] "X").get? 2 =
      some (MsgEffect.enqueueDeliver 2)) ∧
    ((onMessageEffects [("X", [1, 2])] "X").head? =
      some (MsgEffect.increfBulk ((lookupA [("X", [1, 2])] "X").getD []).length) ∧
     increfTotal (onMessageEffects [("X", [1, 2])] "X") =
       ((lookupA [("X", [1, 2])] "X").getD []).length ∧
     increfOps (onMessageEffects [("X", [1, 2])] "X") = 1 ∧
     deliveredChannels (onMessageEffects [("X", [1, 2])] "X") =
       (lookupA [("X", [1, 2])] "X").getD [] ∧
     1 ≤ 2) :=
  ⟨by decide,
   on_message_increfs_once_before_deliveries [("X", [1, 2])] "X" 2 2
     (by decide)⟩

/-! ## TableManager.add -/

/-- C7: `add(table)` fails with the too-late error whenever the
recovery-started latch is set (checked first, table set unchanged); fails
with the duplicate error when a table of that name is registered (table
set unchanged); otherwise registers the table under its name and returns
it. -/
theorem addTable_registers_or_fails (recovery_started : Bool)
    (tables : List (String × Nat)) (name : String) (t : Nat) :
    (recovery_started = true →
      addTable recovery_started tables name t =
        (Except.error TableError.addTooLate, tables)) ∧
    (recovery_started = false → (lookupA tables name).isSome →
      addTable recovery_started tables name t =
        (Except.error TableError.duplicateTable, tables)) ∧
    (recovery_started = false → lookupA tables name = none →
      addTable recovery_started tables name t =
        (Except.ok t, insertA tables name t) ∧
      lookupA (insertA tables name t) name = some t) := by
  refine ⟨?_, ?_, ?_⟩
  · intro h; subst h; simp [addTable]
  · intro h hdup; subst h; simp [addTable, hdup]
  · intro h habs; subst h
    simp [addTable, habs, lookupA_insertA_self]

/-- Witness for C7: all three branches at concrete tables. -/
theorem addTable_registers_or_fails_witness :
    addTable true [("tbl", 0)] "tbl" 1 =
      (Except.error TableError.addTooLate, [("tbl", 0)]) ∧
    addTable false [("tbl", 0)] "tbl" 1 =
      (Except.error TableError.duplicateTable, [("tbl", 0)]) ∧
    (addTable false [] "tbl" 1 = (Except.ok 1, insertA [] "tbl" 1) ∧
     lookupA (insertA ([] : List (String × Nat)) "tbl" 1) "tbl" = some 1) :=
  ⟨(addTable_registers_or_fails true [("tbl", 0)] "tbl" 1).1 rfl,
   (addTable_registers_or_fails false [("tbl", 0)] "tbl" 1).2.1 rfl (by decide),
   (addTable_registers_or_fails false [] "tbl" 1).2.2 rfl rfl⟩

end Faust
